import Mathlib

/-!
Shallow embedding of the voice verification service
(`src/services/verification.py`, class `VoiceVerificationService`).

Python floats are modelled as exact rationals (inputs) and reals
(computed quantities involving square roots / the DFT).  The mutable
dictionary `self.user_voiceprints` is modelled as an explicit store
passed through every operation; operations return the new store
together with the Python return value.
-/

/-- The value stored for a registered user:
`{'features': features, 'created_at': np.datetime64('now')}`.
The timestamp is opaque; we model it as a natural number supplied
by the caller of `register_user_voiceprint`. -/
structure VoiceprintRecord where
  features : List ℚ
  created_at : ℕ
  deriving DecidableEq

/-- The `self.user_voiceprints` dictionary: a partial map from user id
(a Python `int`) to the stored record. -/
def VStore : Type := ℤ → Option VoiceprintRecord

/-- The empty store created by `__init__` (`self.user_voiceprints = {}`). -/
def emptyStore : VStore := fun _ => none

/-- `np.dot` on two equal-length vectors: the sum of pairwise products. -/
def dotQ (a b : List ℚ) : ℚ := (List.zipWith (· * ·) a b).sum

/-- `np.linalg.norm`: the Euclidean norm, `sqrt (Σ vᵢ²)`. -/
noncomputable def normR (v : List ℚ) : ℝ := Real.sqrt ((dotQ v v : ℚ) : ℝ)

/-- `_calculate_similarity`: cosine similarity of two feature vectors,
returning `0.0` when either norm is zero, otherwise the cosine clamped
into `[0, 1]` by `max(0.0, min(1.0, similarity))`. -/
noncomputable def calculate_similarity (features1 features2 : List ℚ) : ℝ :=
  if normR features1 = 0 ∨ normR features2 = 0 then 0
  else max 0 (min 1 (((dotQ features1 features2 : ℚ) : ℝ) / (normR features1 * normR features2)))

/-- `register_user_voiceprint`: stores (overwrites) the record for
`user_id` and returns `True`.  The Python `try/except` guards only
against internal faults, which cannot occur in the model. -/
def register_user_voiceprint (s : VStore) (user_id : ℤ) (features : List ℚ)
    (now : ℕ) : VStore × Bool :=
  (fun v => if v = user_id then some ⟨features, now⟩ else s v, true)

/-- `verify_user_voiceprint`: returns `(False, 0.0)` when `user_id` is
not registered, otherwise the pair
`(similarity >= threshold, similarity)` against the stored features.
The store is returned unchanged (the Python method never mutates it). -/
noncomputable def verify_user_voiceprint (s : VStore) (user_id : ℤ)
    (features : List ℚ) (threshold : ℝ) : VStore × Bool × ℝ :=
  match s user_id with
  | none => (s, false, 0)
  | some r =>
    let sim := calculate_similarity r.features features
    (s, if threshold ≤ sim then true else false, sim)

/-- `remove_user_voiceprint`: deletes the record for `user_id` and
returns `True` when it exists, otherwise returns `False` leaving the
store untouched. -/
def remove_user_voiceprint (s : VStore) (user_id : ℤ) : VStore × Bool :=
  match s user_id with
  | some _ => (fun v => if v = user_id then none else s v, true)
  | none => (s, false)

/-- `np.sign`: the three-valued sign function on each sample. -/
def npSign (x : ℚ) : ℚ := if 0 < x then 1 else if x < 0 then -1 else 0

/-- `np.diff`: consecutive differences `l[i+1] - l[i]`. -/
def npDiff (l : List ℚ) : List ℚ := List.zipWith (fun a b => b - a) l l.tail

/-- `_calculate_zero_crossing_rate`: the number of non-zero entries of
`np.diff(np.sign(audio_data))`, divided by `len(audio_data)`. -/
def calculate_zero_crossing_rate (audio_data : List ℚ) : ℚ :=
  (((npDiff (audio_data.map npSign)).countP (fun d => decide (d ≠ 0)) : ℕ) : ℚ) /
    (audio_data.length : ℚ)

/-- The spec's description of the numerator: the count of adjacent
sample pairs whose three-valued signs differ. -/
def specSignChanges (samples : List ℚ) : ℕ :=
  (samples.zip samples.tail).countP (fun p => decide (npSign p.1 ≠ npSign p.2))

/-- One bin of `np.abs(np.fft.fft(audio_data))`: the magnitude of the
k-th discrete Fourier coefficient `Σₙ xₙ · exp(-2πi·k·n/N)`. -/
noncomputable def fftMag (samples : List ℚ) (k : ℕ) : ℝ :=
  Complex.abs (∑ n in Finset.range samples.length,
    ((samples.getD n 0 : ℚ) : ℂ) *
      Complex.exp ((-2) * (Real.pi : ℂ) * Complex.I * (k : ℂ) * (n : ℂ) /
        (samples.length : ℂ)))

/-- `np.fft.fftfreq n d`: frequencies `k/(d·n)` for `k ≤ (n-1)/2`
followed by the negative frequencies `(k-n)/(d·n)`. -/
def fftfreq (n : ℕ) (d : ℚ) : List ℚ :=
  (List.range n).map (fun k =>
    if k < (n + 1) / 2 then (k : ℚ) / (d * n) else ((k : ℚ) - n) / (d * n))

/-- `_calculate_spectral_centroid`: the magnitude-weighted mean of the
first-half frequency bins (`freqs[:N//2]`, `magnitude[:N//2]`), with a
`0.0` fallback when the magnitude sum is zero. -/
noncomputable def calculate_spectral_centroid (samples : List ℚ)
    (sample_rate : ℕ) : ℝ :=
  let magnitude := (List.range samples.length).map (fftMag samples)
  let freqs := fftfreq samples.length (1 / (sample_rate : ℚ))
  let positive_freqs := freqs.take (samples.length / 2)
  let positive_magnitude := magnitude.take (samples.length / 2)
  if positive_magnitude.sum = 0 then 0
  else ((positive_freqs.zip positive_magnitude).map
      (fun p => (p.1 : ℝ) * p.2)).sum / positive_magnitude.sum

/-- `_calculate_frequency_bands_energy`: the first-half magnitudes
summed under the boolean masks `positive_freqs <= 300`,
`300 < positive_freqs <= 1000` and `1000 < positive_freqs <= 3000`. -/
noncomputable def calculate_frequency_bands_energy (samples : List ℚ)
    (sample_rate : ℕ) : ℝ × ℝ × ℝ :=
  let magnitude := (List.range samples.length).map (fftMag samples)
  let freqs := fftfreq samples.length (1 / (sample_rate : ℚ))
  let positive_freqs := freqs.take (samples.length / 2)
  let positive_magnitude := magnitude.take (samples.length / 2)
  let pairs := positive_freqs.zip positive_magnitude
  let low_energy :=
    ((pairs.filter (fun p => decide (p.1 ≤ 300))).map Prod.snd).sum
  let mid_energy :=
    ((pairs.filter (fun p => decide (300 < p.1 ∧ p.1 ≤ 1000))).map Prod.snd).sum
  let high_energy :=
    ((pairs.filter (fun p => decide (1000 < p.1 ∧ p.1 ≤ 3000))).map Prod.snd).sum
  (low_energy, mid_energy, high_energy)

section StoreClaims

lemma verify_not_found (s : VStore) (u : ℤ) (f : List ℚ) (t : ℝ)
    (h : s u = none) :
    verify_user_voiceprint s u f t = (s, false, 0) := by
  unfold verify_user_voiceprint
  rw [h]

/-- Claim C2: verifying an unregistered user id returns exactly
`(false, 0.0)` (and the store is unchanged), for every store state,
candidate feature vector and threshold. -/
theorem verify_unregistered (s : VStore) (u : ℤ) (f : List ℚ) (t : ℝ)
    (h : s u = none) :
    verify_user_voiceprint s u f t = (s, false, 0) :=
  verify_not_found s u f t h

/-- Witness for C2: on the empty store, verification of user 0 with a
concrete feature vector and threshold yields `(emptyStore, false, 0)`. -/
theorem verify_unregistered_witness :
    verify_user_voiceprint emptyStore 0 [1, 2] (4/5) = (emptyStore, false, 0) :=
  verify_unregistered emptyStore 0 [1, 2] (4/5) rfl

/-- Claim C10: `verify_user_voiceprint` leaves the voiceprint store
completely unchanged: the resulting store is identical (same registered
ids, same features and timestamps) to the input store. -/
theorem verify_preserves_store (s : VStore) (u : ℤ) (f : List ℚ) (t : ℝ) :
    (verify_user_voiceprint s u f t).1 = s := by
  unfold verify_user_voiceprint
  cases s u <;> rfl

/-- Claim C9: `remove_user_voiceprint` returns `true` iff a record for
the user existed; the record is deleted; removing an absent user leaves
the store unchanged and returns `false`; and after removal,
verification of that user returns `(false, 0.0)`. -/
theorem remove_user_spec (s : VStore) (u : ℤ) :
    ((remove_user_voiceprint s u).2 = true ↔ (s u).isSome = true) ∧
    (remove_user_voiceprint s u).1 u = none ∧
    (s u = none → (remove_user_voiceprint s u).1 = s) ∧
    (∀ (f : List ℚ) (t : ℝ),
      verify_user_voiceprint (remove_user_voiceprint s u).1 u f t =
        ((remove_user_voiceprint s u).1, false, 0)) := by
  refine ⟨?_, ?_, ?_, ?_⟩
  · unfold remove_user_voiceprint
    cases h : s u <;> simp
  · unfold remove_user_voiceprint
    cases h : s u
    · simpa using h
    · simp
  · intro h
    unfold remove_user_voiceprint
    rw [h]
  · intro f t
    apply verify_not_found
    unfold remove_user_voiceprint
    cases h : s u
    · simpa using h
    · simp

/-- Witness for C9: removing a registered user 1 from a concrete store
returns `true`, and verifying user 1 afterwards gives `(false, 0.0)`. -/
theorem remove_user_spec_witness :
    ((remove_user_voiceprint
        (fun v => if v = 1 then some ⟨[1], 0⟩ else none) 1).2 = true) ∧
    (verify_user_voiceprint
        (remove_user_voiceprint
          (fun v => if v = 1 then some ⟨[1], 0⟩ else none) 1).1 1 [1] (4/5) =
      ((remove_user_voiceprint
          (fun v => if v = 1 then some ⟨[1], 0⟩ else none) 1).1, false, 0)) :=
  ⟨(remove_user_spec (fun v => if v = 1 then some ⟨[1], 0⟩ else none) 1).1.mpr
      (by simp),
   (remove_user_spec (fun v => if v = 1 then some ⟨[1], 0⟩ else none) 1).2.2.2
      [1] (4/5)⟩

end StoreClaims

section SimilarityLemmas

lemma dotQ_cons (x y : ℚ) (a b : List ℚ) :
    dotQ (x :: a) (y :: b) = x * y + dotQ a b := by
  simp [dotQ]

lemma dotQ_self_nonneg (v : List ℚ) : 0 ≤ dotQ v v := by
  induction v with
  | nil => simp [dotQ]
  | cons x t ih => rw [dotQ_cons]; exact add_nonneg (mul_self_nonneg x) ih

lemma dotQ_replicate_zero (n : ℕ) :
    dotQ (List.replicate n 0) (List.replicate n 0) = 0 := by
  induction n with
  | zero => simp [dotQ]
  | succ n ih => rw [List.replicate_succ, dotQ_cons, ih]; ring

lemma dotQ_self_eq_zero (v : List ℚ) :
    dotQ v v = 0 ↔ v = List.replicate v.length 0 := by
  induction v with
  | nil => simp [dotQ]
  | cons x t ih =>
    rw [dotQ_cons, List.length_cons, List.replicate_succ]
    constructor
    · intro h
      have hx : x = 0 :=
        mul_self_eq_zero.mp (by nlinarith [mul_self_nonneg x, dotQ_self_nonneg t])
      have ht : t = List.replicate t.length 0 :=
        ih.mp (by nlinarith [mul_self_nonneg x, dotQ_self_nonneg t])
      rw [hx]
      exact congrArg (List.cons 0) ht
    · intro h
      obtain ⟨hx, ht⟩ := List.cons_eq_cons.mp h
      rw [hx, ht, dotQ_replicate_zero]
      ring

lemma dotQ_map_neg_right (a b : List ℚ) :
    dotQ a (b.map (fun x => -x)) = -dotQ a b := by
  induction a generalizing b with
  | nil => simp [dotQ]
  | cons x t ih =>
    cases b with
    | nil => simp [dotQ]
    | cons y u =>
      rw [List.map_cons, dotQ_cons, dotQ_cons, ih]
      ring

lemma dotQ_map_neg_self (v : List ℚ) :
    dotQ (v.map (fun x => -x)) (v.map (fun x => -x)) = dotQ v v := by
  induction v with
  | nil => simp [dotQ]
  | cons x t ih =>
    rw [List.map_cons, dotQ_cons, dotQ_cons, ih]
    ring

lemma normR_eq_zero_iff (v : List ℚ) : normR v = 0 ↔ dotQ v v = 0 := by
  unfold normR
  rw [Real.sqrt_eq_zero (by exact_mod_cast dotQ_self_nonneg v)]
  exact Rat.cast_eq_zero

lemma normR_pos (v : List ℚ) (h : dotQ v v ≠ 0) : 0 < normR v := by
  have hlt : (0 : ℝ) < ((dotQ v v : ℚ) : ℝ) := by
    exact_mod_cast lt_of_le_of_ne (dotQ_self_nonneg v) (Ne.symm h)
  exact Real.sqrt_pos.mpr hlt

lemma normR_mul_self (v : List ℚ) :
    normR v * normR v = ((dotQ v v : ℚ) : ℝ) :=
  Real.mul_self_sqrt (by exact_mod_cast dotQ_self_nonneg v)

lemma similarity_self (v : List ℚ) (h : dotQ v v ≠ 0) :
    calculate_similarity v v = 1 := by
  unfold calculate_similarity
  have hne : ¬ (normR v = 0 ∨ normR v = 0) := by
    simp [normR_eq_zero_iff, h]
  rw [if_neg hne, normR_mul_self]
  have hv : ((dotQ v v : ℚ) : ℝ) ≠ 0 := by exact_mod_cast h
  rw [div_self hv]
  norm_num

lemma similarity_zero_of_norm_left (a b : List ℚ) (h : normR a = 0) :
    calculate_similarity a b = 0 := by
  unfold calculate_similarity
  rw [if_pos (Or.inl h)]

lemma verify_found (s : VStore) (u : ℤ) (r : VoiceprintRecord) (f : List ℚ)
    (t : ℝ) (h : s u = some r) :
    verify_user_voiceprint s u f t =
      (s, if t ≤ calculate_similarity r.features f then true else false,
        calculate_similarity r.features f) := by
  unfold verify_user_voiceprint
  rw [h]

lemma register_lookup (s : VStore) (u : ℤ) (f : List ℚ) (now : ℕ) :
    (register_user_voiceprint s u f now).1 u = some ⟨f, now⟩ := by
  unfold register_user_voiceprint
  simp

end SimilarityLemmas

section ZcrLemmas

lemma countDiffSign (l : List ℚ) :
    (npDiff (l.map npSign)).countP (fun d => decide (d ≠ 0)) =
      specSignChanges l := by
  induction l with
  | nil => rfl
  | cons x t ih =>
    cases t with
    | nil => rfl
    | cons y u =>
      have hind : (decide (npSign y - npSign x ≠ 0)) =
          (decide (npSign x ≠ npSign y)) := by
        apply decide_eq_decide.mpr
        rw [sub_ne_zero]
        exact ne_comm
      have ih2 : (npDiff ((y :: u).map npSign)).countP (fun d => decide (d ≠ 0))
          = ((y :: u).zip u).countP
              (fun p => decide (npSign p.1 ≠ npSign p.2)) := ih
      show List.countP (fun d => decide (d ≠ 0))
          ((npSign y - npSign x) :: npDiff ((y :: u).map npSign))
        = List.countP (fun p => decide (npSign p.1 ≠ npSign p.2))
          ((x, y) :: (y :: u).zip u)
      rw [List.countP_cons, List.countP_cons, ih2, hind]

end ZcrLemmas

section ZcrClaim

/-- Claim C6: for every non-empty sample sequence, the zero-crossing
rate is the number of adjacent sample pairs with distinct three-valued
signs, divided by the total sample count. -/
theorem zcr_spec (samples : List ℚ) (h : samples ≠ []) :
    calculate_zero_crossing_rate samples =
      (specSignChanges samples : ℚ) / (samples.length : ℚ) := by
  unfold calculate_zero_crossing_rate
  rw [countDiffSign]

/-- Witness for C6: the two-sample sequence `[1, -1]` has one sign
change over two samples. -/
theorem zcr_spec_witness :
    calculate_zero_crossing_rate [1, -1] =
      (specSignChanges [1, -1] : ℚ) / ((([1, -1] : List ℚ).length : ℕ) : ℚ) :=
  zcr_spec [1, -1] (by decide)

end ZcrClaim

section SimilarityClaims

/-- Claim C3: if either input's Euclidean norm is 0,
`_calculate_similarity` returns exactly `0.0`; in particular, comparing
an all-zero vector with itself yields `0.0`, not `1.0`. -/
theorem similarity_zero_norm (a b : List ℚ) (h : normR a = 0 ∨ normR b = 0) :
    calculate_similarity a b = 0 := by
  unfold calculate_similarity
  rw [if_pos h]

/-- Witness for C3: the all-zero 7-vector compared with itself gives
similarity `0`. -/
theorem similarity_zero_norm_witness :
    calculate_similarity (List.replicate 7 0) (List.replicate 7 0) = 0 :=
  similarity_zero_norm (List.replicate 7 0) (List.replicate 7 0)
    (Or.inl ((normR_eq_zero_iff (List.replicate 7 0)).mpr (dotQ_replicate_zero 7)))

/-- Claim C4: the similarity score always lies in `[0, 1]`, and the
similarity of a vector with its negation is clamped to `0`. -/
theorem similarity_clamped :
    (∀ a b : List ℚ,
      0 ≤ calculate_similarity a b ∧ calculate_similarity a b ≤ 1) ∧
    (∀ v : List ℚ, calculate_similarity v (v.map (fun x => -x)) = 0) := by
  constructor
  · intro a b
    unfold calculate_similarity
    split
    · norm_num
    · exact ⟨le_max_left _ _, max_le (by norm_num) (min_le_left _ _)⟩
  · intro v
    by_cases h : dotQ v v = 0
    · exact similarity_zero_of_norm_left _ _ ((normR_eq_zero_iff v).mpr h)
    · unfold calculate_similarity
      have hnv : normR v ≠ 0 := fun hz => h ((normR_eq_zero_iff v).mp hz)
      have hnm : normR (v.map (fun x => -x)) = normR v := by
        unfold normR
        rw [dotQ_map_neg_self]
      rw [hnm, if_neg (by simp [hnv])]
      have hppos : (0 : ℝ) < normR v * normR v :=
        mul_pos (normR_pos v h) (normR_pos v h)
      have hneg : ((dotQ v (v.map (fun x => -x)) : ℚ) : ℝ) < 0 := by
        rw [dotQ_map_neg_right]
        have hlt : (0 : ℚ) < dotQ v v :=
          lt_of_le_of_ne (dotQ_self_nonneg v) (Ne.symm h)
        push_cast
        exact neg_neg_of_pos (by exact_mod_cast hlt)
      have hq : ((dotQ v (v.map (fun x => -x)) : ℚ) : ℝ) / (normR v * normR v) < 0 :=
        div_neg_of_neg_of_pos hneg hppos
      rw [min_eq_right (le_of_lt (lt_of_lt_of_le hq (by norm_num)))]
      exact max_eq_left (le_of_lt hq)

/-- Claim C5: self-similarity of any non-zero vector is exactly `1`
(in the exact-arithmetic model of the floating-point code). -/
theorem similarity_self_one (v : List ℚ) (h : v ≠ List.replicate v.length 0) :
    calculate_similarity v v = 1 :=
  similarity_self v (fun hz => h ((dotQ_self_eq_zero v).mp hz))

/-- Witness for C5: a concrete non-zero 7-vector has self-similarity 1. -/
theorem similarity_self_one_witness :
    calculate_similarity [1, 0, 0, 0, 0, 0, 0] [1, 0, 0, 0, 0, 0, 0] = 1 :=
  similarity_self_one [1, 0, 0, 0, 0, 0, 0] (by decide)

/-- Counterexample to C1 as stated: registering the all-zero 7-vector
and immediately verifying it with threshold `0.8 ≤ 1.0` yields
`verified = false` (the zero-norm branch gives score `0.0 < 0.8`). -/
theorem register_verify_zero_counterexample :
    (verify_user_voiceprint
        (register_user_voiceprint emptyStore 1 (List.replicate 7 0) 0).1
        1 (List.replicate 7 0) (4/5)).2.1 = false := by
  rw [verify_found _ _ ⟨List.replicate 7 0, 0⟩ _ _
    (register_lookup emptyStore 1 (List.replicate 7 0) 0)]
  show (if (4/5 : ℝ) ≤ calculate_similarity (List.replicate 7 0) (List.replicate 7 0)
      then true else false) = false
  rw [similarity_zero_of_norm_left _ _
    ((normR_eq_zero_iff (List.replicate 7 0)).mpr (dotQ_replicate_zero 7))]
  rw [if_neg (by norm_num)]

/-- Claim C1 (amended): for every store, user id, 7-element feature
vector that is not all zeros, and threshold `t ≤ 1`, registering and
then immediately verifying with the same features yields
`verified = true`. -/
theorem register_then_verify (s : VStore) (u : ℤ) (f : List ℚ) (now : ℕ)
    (t : ℝ) (hlen : f.length = 7) (hf : f ≠ List.replicate f.length 0)
    (ht : t ≤ 1) :
    (verify_user_voiceprint (register_user_voiceprint s u f now).1 u f t).2.1 =
      true := by
  rw [verify_found _ _ ⟨f, now⟩ _ _ (register_lookup s u f now)]
  show (if t ≤ calculate_similarity f f then true else false) = true
  rw [similarity_self f (fun hz => hf ((dotQ_self_eq_zero f).mp hz)), if_pos ht]

/-- Witness for C1 (amended): a concrete non-zero 7-vector registered on
the empty store verifies at threshold `1`. -/
theorem register_then_verify_witness :
    (verify_user_voiceprint
        (register_user_voiceprint emptyStore 1 [1, 0, 0, 0, 0, 0, 0] 0).1
        1 [1, 0, 0, 0, 0, 0, 0] 1).2.1 = true :=
  register_then_verify emptyStore 1 [1, 0, 0, 0, 0, 0, 0] 0 1 rfl (by decide)
    le_rfl

end SimilarityClaims

section SpectralLemmas

lemma map_range_take {α : Type} (f : ℕ → α) (n m : ℕ) (h : m ≤ n) :
    ((List.range n).map f).take m = (List.range m).map f := by
  rw [← List.map_take, List.take_range, Nat.min_eq_left h]

lemma fftfreq_take (n sr : ℕ) :
    (fftfreq n (1 / (sr : ℚ))).take (n / 2) =
      (List.range (n / 2)).map (fun k : ℕ => (k : ℚ) * sr / n) := by
  unfold fftfreq
  rw [map_range_take _ _ _ (Nat.div_le_self n 2)]
  apply List.map_congr_left
  intro k hk
  have hk2 : k < n / 2 := List.mem_range.mp hk
  have hcond : k < (n + 1) / 2 := by omega
  rw [if_pos hcond, one_div, inv_mul_eq_div, div_div_eq_mul_div]

lemma sum_map_range {M : Type} [AddCommMonoid M] (n : ℕ) (f : ℕ → M) :
    ((List.range n).map f).sum = ∑ k in Finset.range n, f k := by
  induction n with
  | zero => simp
  | succ n ih =>
    rw [List.range_succ, List.map_append, List.sum_append,
      Finset.sum_range_succ, ih]
    simp

lemma sum_filter_map_range (n : ℕ) (g : ℕ → ℚ) (h : ℕ → ℝ) (q : ℚ → Bool) :
    ((((List.range n).map (fun k => (g k, h k))).filter
        (fun p => q p.1)).map Prod.snd).sum
      = ∑ k in Finset.range n, if q (g k) then h k else 0 := by
  induction n with
  | zero => simp
  | succ n ih =>
    rw [List.range_succ, List.map_append, List.filter_append, List.map_append,
      List.sum_append, Finset.sum_range_succ, ih]
    by_cases hq : q (g n) = true
    · simp [hq]
    · simp [hq]

lemma sum_filter_map_range_prop (n : ℕ) (g : ℕ → ℚ) (h : ℕ → ℝ)
    (p : ℚ → Prop) [DecidablePred p] :
    ((((List.range n).map (fun k => (g k, h k))).filter
        (fun x => decide (p x.1))).map Prod.snd).sum
      = ∑ k in (Finset.range n).filter (fun k => p (g k)), h k := by
  rw [sum_filter_map_range n g h (fun x => decide (p x)), Finset.sum_filter]
  exact Finset.sum_congr rfl (fun k _ => by by_cases hc : p (g k) <;> simp [hc])

lemma sum_zip_mul_range (n : ℕ) (g : ℕ → ℚ) (h : ℕ → ℝ) :
    (((List.range n).map (fun k => (g k, h k))).map
        (fun p => (p.1 : ℝ) * p.2)).sum
      = ∑ k in Finset.range n, ((g k : ℚ) : ℝ) * h k := by
  rw [List.map_map, sum_map_range]
  exact Finset.sum_congr rfl (fun k _ => rfl)

lemma band_if_partition (a : ℚ) (m : ℝ) :
    (if a ≤ 300 then m else 0) + (if 300 < a ∧ a ≤ 1000 then m else 0) +
      (if 1000 < a ∧ a ≤ 3000 then m else 0) =
      if a ≤ 3000 then m else 0 := by
  rcases le_or_lt a 300 with h1 | h1
  · rw [if_pos h1, if_neg (by rintro ⟨hl, _⟩; linarith),
      if_neg (by rintro ⟨hl, _⟩; linarith), if_pos (by linarith)]
    ring
  · rcases le_or_lt a 1000 with h2 | h2
    · rw [if_neg (by linarith), if_pos ⟨h1, h2⟩,
        if_neg (by rintro ⟨hl, _⟩; linarith), if_pos (by linarith)]
      ring
    · rcases le_or_lt a 3000 with h3 | h3
      · rw [if_neg (by linarith), if_neg (by rintro ⟨_, hr⟩; linarith),
          if_pos ⟨by linarith, h3⟩, if_pos h3]
        ring
      · rw [if_neg (by linarith), if_neg (by rintro ⟨_, hr⟩; linarith),
          if_neg (by rintro ⟨_, hr⟩; linarith), if_neg (by linarith)]
        ring

end SpectralLemmas

section SpectralClaims

/-- Claim C7: each band energy is the sum of the first-half DFT
magnitudes over the bins whose frequency `k·sr/N` lies in `(-∞, 300]`
(low), `(300, 1000]` (mid) and `(1000, 3000]` (high), and the three
bands together account exactly for the bins with frequency at most
3000 Hz, so bins above 3000 Hz contribute to no band. -/
theorem bands_energy_spec (samples : List ℚ) (sample_rate : ℕ)
    (hsr : 0 < sample_rate) (hne : samples ≠ []) :
    calculate_frequency_bands_energy samples sample_rate =
      (∑ k in (Finset.range (samples.length / 2)).filter
          (fun k : ℕ => ((k : ℚ) * sample_rate / samples.length) ≤ 300),
        fftMag samples k,
       ∑ k in (Finset.range (samples.length / 2)).filter
          (fun k : ℕ => 300 < ((k : ℚ) * sample_rate / samples.length) ∧
            ((k : ℚ) * sample_rate / samples.length) ≤ 1000),
        fftMag samples k,
       ∑ k in (Finset.range (samples.length / 2)).filter
          (fun k : ℕ => 1000 < ((k : ℚ) * sample_rate / samples.length) ∧
            ((k : ℚ) * sample_rate / samples.length) ≤ 3000),
        fftMag samples k) ∧
    (calculate_frequency_bands_energy samples sample_rate).1 +
        (calculate_frequency_bands_energy samples sample_rate).2.1 +
        (calculate_frequency_bands_energy samples sample_rate).2.2 =
      ∑ k in (Finset.range (samples.length / 2)).filter
          (fun k : ℕ => ((k : ℚ) * sample_rate / samples.length) ≤ 3000),
        fftMag samples k := by
  have hmain : calculate_frequency_bands_energy samples sample_rate =
      (∑ k in (Finset.range (samples.length / 2)).filter
          (fun k : ℕ => ((k : ℚ) * sample_rate / samples.length) ≤ 300),
        fftMag samples k,
       ∑ k in (Finset.range (samples.length / 2)).filter
          (fun k : ℕ => 300 < ((k : ℚ) * sample_rate / samples.length) ∧
            ((k : ℚ) * sample_rate / samples.length) ≤ 1000),
        fftMag samples k,
       ∑ k in (Finset.range (samples.length / 2)).filter
          (fun k : ℕ => 1000 < ((k : ℚ) * sample_rate / samples.length) ∧
            ((k : ℚ) * sample_rate / samples.length) ≤ 3000),
        fftMag samples k) := by
    simp only [calculate_frequency_bands_energy]
    rw [fftfreq_take samples.length sample_rate,
      map_range_take (fftMag samples) _ _ (Nat.div_le_self _ 2),
      List.zip_map']
    rw [sum_filter_map_range_prop _ _ _ (fun a => a ≤ 300),
      sum_filter_map_range_prop _ _ _ (fun a => 300 < a ∧ a ≤ 1000),
      sum_filter_map_range_prop _ _ _ (fun a => 1000 < a ∧ a ≤ 3000)]
  refine ⟨hmain, ?_⟩
  simp only [hmain]
  rw [Finset.sum_filter, Finset.sum_filter, Finset.sum_filter,
    Finset.sum_filter, ← Finset.sum_add_distrib, ← Finset.sum_add_distrib]
  exact Finset.sum_congr rfl (fun k _ => band_if_partition _ _)

/-- Witness for C7: a one-sample signal at 1 Hz has no first-half bins,
so all three band energies are zero. -/
theorem bands_energy_spec_witness :
    calculate_frequency_bands_energy [1] 1 = (0, 0, 0) := by
  have h := (bands_energy_spec [1] 1 (by norm_num) (by simp)).1
  simpa using h

/-- Claim C8: the spectral centroid is
`Σ (k·sr/N)·mag(k) / Σ mag(k)` over the first-half bins `k < N/2`,
and it is exactly `0` when the magnitude sum is exactly `0`. -/
theorem centroid_spec (samples : List ℚ) (sample_rate : ℕ)
    (hsr : 0 < sample_rate) (hne : samples ≠ []) :
    (calculate_spectral_centroid samples sample_rate =
      if (∑ k in Finset.range (samples.length / 2), fftMag samples k) = 0
      then 0
      else (∑ k in Finset.range (samples.length / 2),
          ((k : ℝ) * sample_rate / samples.length) * fftMag samples k) /
        (∑ k in Finset.range (samples.length / 2), fftMag samples k)) ∧
    ((∑ k in Finset.range (samples.length / 2), fftMag samples k) = 0 →
      calculate_spectral_centroid samples sample_rate = 0) := by
  have hcast : ∀ k : ℕ,
      (((k : ℚ) * sample_rate / samples.length : ℚ) : ℝ) =
        (k : ℝ) * sample_rate / samples.length := by
    intro k
    push_cast
    ring
  have hmain : calculate_spectral_centroid samples sample_rate =
      if (∑ k in Finset.range (samples.length / 2), fftMag samples k) = 0
      then 0
      else (∑ k in Finset.range (samples.length / 2),
          ((k : ℝ) * sample_rate / samples.length) * fftMag samples k) /
        (∑ k in Finset.range (samples.length / 2), fftMag samples k) := by
    simp only [calculate_spectral_centroid]
    rw [fftfreq_take samples.length sample_rate,
      map_range_take (fftMag samples) _ _ (Nat.div_le_self _ 2),
      List.zip_map', sum_map_range, sum_zip_mul_range]
    simp only [hcast]
  exact ⟨hmain, fun h0 => by rw [hmain, if_pos h0]⟩

/-- Witness for C8: a one-sample signal at 1 Hz has no first-half bins;
the magnitude sum is `0` and the centroid is `0`. -/
theorem centroid_spec_witness :
    calculate_spectral_centroid [1] 1 = 0 := by
  have h := (centroid_spec [1] 1 (by norm_num) (by simp)).2
  apply h
  simp

end SpectralClaims
